import Mathlib

/-!
Shallow embedding of the ei-type repository (src/main.rs, src/eis.rs,
src/keymap.rs): an EIS keyboard-emulation client.  Pure lookup tables and
the combo parser are translated directly from src/keymap.rs; the session
establishment loop and the emulation driver of src/eis.rs are translated
as explicit state passing over an event script, with an action trace
recording every request the code emits on the wire.
-/

/-- Key information: evdev keycode and whether shift is required
(src/keymap.rs lines 1-5). -/
structure KeyInfo where
  code : Nat
  shift : Bool
deriving DecidableEq, Repr

-- Evdev keycodes (src/keymap.rs lines 7-62).
def KEY_ESC : Nat := 1
def KEY_1 : Nat := 2
def KEY_2 : Nat := 3
def KEY_3 : Nat := 4
def KEY_4 : Nat := 5
def KEY_5 : Nat := 6
def KEY_6 : Nat := 7
def KEY_7 : Nat := 8
def KEY_8 : Nat := 9
def KEY_9 : Nat := 10
def KEY_0 : Nat := 11
def KEY_MINUS : Nat := 12
def KEY_EQUAL : Nat := 13
def KEY_TAB : Nat := 15
def KEY_Q : Nat := 16
def KEY_W : Nat := 17
def KEY_E : Nat := 18
def KEY_R : Nat := 19
def KEY_T : Nat := 20
def KEY_Y : Nat := 21
def KEY_U : Nat := 22
def KEY_I : Nat := 23
def KEY_O : Nat := 24
def KEY_P : Nat := 25
def KEY_LEFTBRACE : Nat := 26
def KEY_RIGHTBRACE : Nat := 27
def KEY_ENTER : Nat := 28
def KEY_LEFTCTRL : Nat := 29
def KEY_A : Nat := 30
def KEY_S : Nat := 31
def KEY_D : Nat := 32
def KEY_F : Nat := 33
def KEY_G : Nat := 34
def KEY_H : Nat := 35
def KEY_J : Nat := 36
def KEY_K : Nat := 37
def KEY_L : Nat := 38
def KEY_SEMICOLON : Nat := 39
def KEY_APOSTROPHE : Nat := 40
def KEY_GRAVE : Nat := 41
def KEY_LEFTSHIFT : Nat := 42
def KEY_BACKSLASH : Nat := 43
def KEY_Z : Nat := 44
def KEY_X : Nat := 45
def KEY_C : Nat := 46
def KEY_V : Nat := 47
def KEY_B : Nat := 48
def KEY_N : Nat := 49
def KEY_M : Nat := 50
def KEY_COMMA : Nat := 51
def KEY_DOT : Nat := 52
def KEY_SLASH : Nat := 53
def KEY_LEFTALT : Nat := 56
def KEY_SPACE : Nat := 57
def KEY_LEFTMETA : Nat := 125

/-- The alphabetic keycode table (src/keymap.rs lines 64-68). -/
def AZ_CODES : List Nat :=
  [KEY_A, KEY_B, KEY_C, KEY_D, KEY_E, KEY_F, KEY_G, KEY_H, KEY_I,
   KEY_J, KEY_K, KEY_L, KEY_M, KEY_N, KEY_O, KEY_P, KEY_Q, KEY_R,
   KEY_S, KEY_T, KEY_U, KEY_V, KEY_W, KEY_X, KEY_Y, KEY_Z]

/-- Map a character to its evdev keycode and shift state
(src/keymap.rs lines 70-116, `char_to_key`).  The Rust range patterns
become guard chains; the arms are pairwise disjoint so the order is
immaterial.  The out-of-range default of `getD` is unreachable because
the index is below 26 whenever the guard holds. -/
def char_to_key (c : Char) : Option KeyInfo :=
  if 'a' ≤ c ∧ c ≤ 'z' then some ⟨AZ_CODES.getD (c.toNat - 97) 0, false⟩
  else if 'A' ≤ c ∧ c ≤ 'Z' then some ⟨AZ_CODES.getD (c.toNat - 65) 0, true⟩
  else if '1' ≤ c ∧ c ≤ '9' then some ⟨KEY_1 + (c.toNat - 49), false⟩
  else if c = '0' then some ⟨KEY_0, false⟩
  else if c = ' ' then some ⟨KEY_SPACE, false⟩
  else if c = '\n' then some ⟨KEY_ENTER, false⟩
  else if c = '\t' then some ⟨KEY_TAB, false⟩
  else if c = '-' then some ⟨KEY_MINUS, false⟩
  else if c = '=' then some ⟨KEY_EQUAL, false⟩
  else if c = '[' then some ⟨KEY_LEFTBRACE, false⟩
  else if c = ']' then some ⟨KEY_RIGHTBRACE, false⟩
  else if c = '\\' then some ⟨KEY_BACKSLASH, false⟩
  else if c = ';' then some ⟨KEY_SEMICOLON, false⟩
  else if c = '\u0027' then some ⟨KEY_APOSTROPHE, false⟩
  else if c = '\u0060' then some ⟨KEY_GRAVE, false⟩
  else if c = ',' then some ⟨KEY_COMMA, false⟩
  else if c = '.' then some ⟨KEY_DOT, false⟩
  else if c = '/' then some ⟨KEY_SLASH, false⟩
  else if c = '!' then some ⟨KEY_1, true⟩
  else if c = '@' then some ⟨KEY_2, true⟩
  else if c = '#' then some ⟨KEY_3, true⟩
  else if c = '$' then some ⟨KEY_4, true⟩
  else if c = '%' then some ⟨KEY_5, true⟩
  else if c = '^' then some ⟨KEY_6, true⟩
  else if c = '&' then some ⟨KEY_7, true⟩
  else if c = '*' then some ⟨KEY_8, true⟩
  else if c = '(' then some ⟨KEY_9, true⟩
  else if c = ')' then some ⟨KEY_0, true⟩
  else if c = '_' then some ⟨KEY_MINUS, true⟩
  else if c = '+' then some ⟨KEY_EQUAL, true⟩
  else if c = '\x7b' then some ⟨KEY_LEFTBRACE, true⟩
  else if c = '\x7d' then some ⟨KEY_RIGHTBRACE, true⟩
  else if c = '|' then some ⟨KEY_BACKSLASH, true⟩
  else if c = ':' then some ⟨KEY_SEMICOLON, true⟩
  else if c = '\u0022' then some ⟨KEY_APOSTROPHE, true⟩
  else if c = '~' then some ⟨KEY_GRAVE, true⟩
  else if c = '<' then some ⟨KEY_COMMA, true⟩
  else if c = '>' then some ⟨KEY_DOT, true⟩
  else if c = '?' then some ⟨KEY_SLASH, true⟩
  else none

/-- Combo parse failures (src/keymap.rs lines 123, 135, 144, 155: the
three `Err(format!(..))` shapes plus the dead empty-combo arm). -/
inductive ParseFail where
  | emptyCombo
  | unknownModifier (tok : String)
  | unknownKey (tok : String)
deriving DecidableEq, Repr

/-- Split a character list at every plus sign, mirroring the Rust
`combo.split(PLUS).collect::<Vec<_>>()` of src/keymap.rs line 121.
Always returns a non-empty list of groups. -/
def splitPlus : List Char → List (List Char)
  | [] => [[]]
  | c :: rest =>
    let r := splitPlus rest
    if c = '+' then [] :: r
    else
      match r with
      | g :: gs => (c :: g) :: gs
      | [] => [[c]]

/-- ASCII lowercasing of a token, as Rust `str::to_lowercase` behaves on
the ASCII tokens this program compares against. -/
def rustLower (s : List Char) : List Char := s.map Char.toLower

/-- Resolve one modifier token (src/keymap.rs lines 129-137). -/
def modifier_code (part : List Char) : Option Nat :=
  let p := rustLower part
  if p = "ctrl".toList ∨ p = "control".toList then some KEY_LEFTCTRL
  else if p = "shift".toList then some KEY_LEFTSHIFT
  else if p = "alt".toList then some KEY_LEFTALT
  else if p = "super".toList ∨ p = "meta".toList then some KEY_LEFTMETA
  else none

/-- The modifier accumulation loop over all parts but the last
(src/keymap.rs lines 126-138). -/
def parse_mods : List (List Char) → List Nat → Except ParseFail (List Nat)
  | [], acc => .ok acc
  | p :: ps, acc =>
    match modifier_code p with
    | some m => parse_mods ps (acc ++ [m])
    | none => .error (.unknownModifier (String.mk p))

/-- Parse a key combo string like "ctrl+v", "enter", "shift+a"
(src/keymap.rs lines 118-160, `parse_combo`).  Returns the ordered
modifier keycodes and the final keycode. -/
def parse_combo (combo : String) : Except ParseFail (List Nat × Nat) :=
  let parts := splitPlus combo.toList
  match parts.getLast? with
  | none => .error .emptyCombo
  | some lastPart =>
    match parse_mods parts.dropLast [] with
    | .error e => .error e
    | .ok mods =>
      let key_str := rustLower lastPart
      match key_str with
      | [c] =>
        match char_to_key c with
        | none => .error (.unknownKey (String.mk [c]))
        | some ki =>
          let mods := if ki.shift ∧ ¬ KEY_LEFTSHIFT ∈ mods
                      then mods ++ [KEY_LEFTSHIFT] else mods
          .ok (mods, ki.code)
      | _ =>
        if key_str = "enter".toList ∨ key_str = "return".toList then .ok (mods, KEY_ENTER)
        else if key_str = "tab".toList then .ok (mods, KEY_TAB)
        else if key_str = "space".toList then .ok (mods, KEY_SPACE)
        else if key_str = "esc".toList ∨ key_str = "escape".toList then .ok (mods, KEY_ESC)
        else .error (.unknownKey (String.mk key_str))

deriving instance DecidableEq for Except

/-!
## Wire-protocol event model (src/eis.rs)


The reis codec delivers a stream of `PendingRequestResult` values.  The
constructors below mirror exactly the shapes `EisConnection::connect`
matches on (src/eis.rs lines 100-196).  Protocol objects (keyboards,
devices, interface objects) are identified by numeric ids; the id of the
device carried by a device event is recorded even where the Rust code
ignores it, so that statements about device identity can be expressed.
-/

/-- A parsed protocol event (`ei::Event`), restricted to the shapes the
client distinguishes. -/
inductive EiEv where
  | seatAnnounced
  | ping
  | disconnected (lastSerial : Nat) (reasonCode : Nat) (explanation : String)
  | connOther
  | seatCapability (interface : String) (mask : Nat)
  | seatDone
  | seatNewDevice
  | seatOther
  | devInterface (dev : Nat) (name : String) (obj : Nat)
  | devDone (dev : Nat)
  | devResumed (dev : Nat) (serial : Nat)
  | devOther
  | keyboardEv
  | otherEv
deriving DecidableEq, Repr

/-- A `reis::PendingRequestResult`: a parsed request, a parse failure, or
an unknown object id. -/
inductive EiIn where
  | req (e : EiEv)
  | parseFailure (msg : String)
  | invalidObject (id : Nat)
deriving DecidableEq, Repr

/-- The session handle (src/eis.rs lines 28-34, `struct EisConnection`).
The socket context itself is not data; the remaining fields are. -/
structure EisConnection where
  keyboard : Nat
  device : Nat
  last_serial : Nat
  verbose : Bool
deriving DecidableEq, Repr

/-!
## Emulation driver (src/eis.rs lines 274-366)

Each driver call is modelled as a function from the handle and the list
of events buffered on the socket (consumed by its `dispatch`) to the
returned handle plus the trace of key/frame/flush/sleep actions it
performs, in program order.  Transport writes are modelled as always
succeeding; a write failure would abort the operation early, which no
claim below depends on.
-/

/-- One observable action of the emulation driver. -/
inductive KeyAct where
  | key (code : Nat) (press : Bool)
  | frame (serial : Nat)
  | flush
  | sleep (us : Nat)
  | pingDone
deriving DecidableEq, Repr

/-- Process any pending incoming events, answering pings and discarding
everything else (src/eis.rs lines 274-286, `dispatch`).  Takes the
connection by shared reference in Rust, so no state is returned. -/
def dispatch (pend : List EiIn) : List KeyAct :=
  match pend with
  | [] => []
  | i :: rest =>
    (if i = .req .ping then [KeyAct.pingDone] else []) ++ dispatch rest

/-- The modifier press loop of `send_key_combo`
(src/eis.rs lines 312-316): each keycode pressed then framed. -/
def pressSeq (serial : Nat) : List Nat → List KeyAct
  | [] => []
  | m :: ms => .key m true :: .frame serial :: pressSeq serial ms

/-- The modifier release loop of `send_key_combo`
(src/eis.rs lines 327-331): each keycode released then framed. -/
def releaseSeq (serial : Nat) : List Nat → List KeyAct
  | [] => []
  | m :: ms => .key m false :: .frame serial :: releaseSeq serial ms

/-- One key-press transaction (src/eis.rs lines 338-366, `type_key`). -/
def type_key (c : EisConnection) (code : Nat) (shift : Bool) (delay_us : Nat)
    (pend : List EiIn) : EisConnection × List KeyAct :=
  let tr :=
    (if shift then [KeyAct.key KEY_LEFTSHIFT true, KeyAct.frame c.last_serial] else [])
    ++ [KeyAct.key code true, KeyAct.frame c.last_serial, KeyAct.flush,
        KeyAct.sleep delay_us,
        KeyAct.key code false, KeyAct.frame c.last_serial]
    ++ (if shift then [KeyAct.key KEY_LEFTSHIFT false, KeyAct.frame c.last_serial] else [])
    ++ [KeyAct.flush]
    ++ dispatch pend
    ++ [KeyAct.sleep delay_us]
  (c, tr)

/-- The per-character loop of `type_text` (src/eis.rs lines 288-302):
mapped characters run one key-press transaction each (consuming one
batch of pending events at its dispatch), unmapped characters are
skipped. -/
def type_text_go (c : EisConnection) (delay_us : Nat) :
    List Char → List (List EiIn) → EisConnection × List KeyAct
  | [], _ => (c, [])
  | ch :: rest, pends =>
    match char_to_key ch with
    | some ki =>
      let step := type_key c ki.code ki.shift delay_us (pends.headD [])
      let next := type_text_go step.1 delay_us rest pends.tail
      (next.1, step.2 ++ next.2)
    | none => type_text_go c delay_us rest pends

/-- Type a string character by character with inter-key delay
(src/eis.rs lines 288-302, `type_text`). -/
def type_text (c : EisConnection) (text : String) (delay_us : Nat)
    (pends : List (List EiIn)) : EisConnection × List KeyAct :=
  type_text_go c delay_us text.toList pends

/-- Send a key combo like "ctrl+v" or "enter"
(src/eis.rs lines 304-336, `send_key_combo`).  A parse failure aborts
before any action is performed. -/
def send_key_combo (c : EisConnection) (combo : String) (delay_us : Nat)
    (pend : List EiIn) : List KeyAct × Except ParseFail EisConnection :=
  match parse_combo combo with
  | .error e => ([], .error e)
  | .ok (modifiers, keycode) =>
    (pressSeq c.last_serial modifiers
     ++ [KeyAct.key keycode true, KeyAct.frame c.last_serial, KeyAct.flush,
         KeyAct.sleep delay_us,
         KeyAct.key keycode false, KeyAct.frame c.last_serial]
     ++ releaseSeq c.last_serial modifiers.reverse
     ++ [KeyAct.flush]
     ++ dispatch pend,
     .ok c)

/-- Number of transport flushes in a trace (a measuring function for the
stated properties, not part of the program). -/
def countFlush : List KeyAct → Nat
  | [] => 0
  | .flush :: r => countFlush r + 1
  | _ :: r => countFlush r

/-!
## Session establishment (src/eis.rs lines 36-272, `EisConnection::connect`)

The socket is modelled as a script of poll outcomes: each time the code
polls the descriptor, the next outcome is consumed; `data evs` means the
poll reported readability and the following `read` buffered the events
`evs`; an exhausted script polls as forever-empty (a quiescent server).
The handshake itself is the external blocking helper; its result (the
starting serial) and any events it left buffered are inputs.  Requests
the client emits are recorded in a trace.  Transport writes (`flush`)
are modelled as succeeding; `read` after a successful poll likewise.
-/

/-- One outcome of polling the socket for readability
(src/eis.rs lines 12-26, `poll_readable`, as consumed at lines 211-224). -/
inductive PollOutcome where
  | data (evs : List EiIn)
  | empty
  | interrupted
  | ioFailure
deriving DecidableEq, Repr

/-- An observable action of the establishment code. -/
inductive ConnAct where
  | pingDone
  | flush
  | bind (mask : Nat)
  | disconnectReport (serial : Nat) (reasonCode : Nat) (explanation : String)
  | emptyPoll
  | startEmulating (serial : Nat)
deriving DecidableEq, Repr

/-- The error exits of `connect` (each distinct `return Err(..)` site of
src/eis.rs, plus fuel exhaustion of the bounded model, which no
sufficiently-fuelled run reaches). -/
inductive ConnFail where
  | parseFailed (msg : String)
  | serverDisconnected
  | timeout
  | noKeyboard
  | noDevice
  | transport
  | fuelOut
deriving DecidableEq, Repr

/-- The mutable locals of the establishment loop
(src/eis.rs lines 57, 89-95). -/
structure LoopState where
  seatCaps : List (String × Nat)
  keyboard : Option Nat
  kbdDevice : Option Nat
  deviceInterfaces : List (String × Nat)
  ready : Bool
  timeoutCount : Nat
  lastSerial : Nat
deriving DecidableEq, Repr

/-- `HashMap::insert`: replace the value under an existing key,
otherwise add the binding. -/
def insertAssoc : List (String × Nat) → String → Nat → List (String × Nat)
  | [], k, v => [(k, v)]
  | (k0, v0) :: rest, k, v =>
    if k0 = k then (k, v) :: rest else (k0, v0) :: insertAssoc rest k v

/-- `HashMap::get` by key. -/
def lookupAssoc : List (String × Nat) → String → Option Nat
  | [], _ => none
  | (k0, v0) :: rest, k => if k0 = k then some v0 else lookupAssoc rest k

/-- `seat_caps.values().copied().sum::<u64>()` (src/eis.rs line 145);
the sum wraps at 2^64 as release-mode u64 addition does. -/
def sumCaps (l : List (String × Nat)) : Nat :=
  (l.foldl (fun a p => a + p.2) 0) % (2 ^ 64)

/-- Handle one pending result inside the drain loop
(src/eis.rs lines 100-196): returns the actions emitted and either the
updated locals or the error that aborts `connect`. -/
def drainStep (st : LoopState) (i : EiIn) : List ConnAct × Except ConnFail LoopState :=
  match i with
  | .parseFailure msg => ([], .error (.parseFailed msg))
  | .invalidObject _ => ([], .ok st)
  | .req e =>
    match e with
    | .seatAnnounced => ([], .ok st)
    | .ping => ([.pingDone, .flush], .ok st)
    | .disconnected s r x => ([.disconnectReport s r x], .error .serverDisconnected)
    | .connOther => ([], .ok st)
    | .seatCapability interface mask =>
      ([], .ok { st with seatCaps := insertAssoc st.seatCaps interface (mask % (2 ^ 64)) })
    | .seatDone => ([.bind (sumCaps st.seatCaps), .flush], .ok st)
    | .seatNewDevice => ([], .ok { st with deviceInterfaces := [] })
    | .seatOther => ([], .ok st)
    | .devInterface _ name obj =>
      ([], .ok { st with deviceInterfaces := insertAssoc st.deviceInterfaces name obj })
    | .devDone dev =>
      match lookupAssoc st.deviceInterfaces "ei_keyboard" with
      | some obj => ([], .ok { st with keyboard := some obj, kbdDevice := some dev })
      | none => ([], .ok st)
    | .devResumed _ serial =>
      ([], .ok { st with lastSerial := serial,
                         ready := if st.keyboard.isSome then true else st.ready })
    | .devOther => ([], .ok st)
    | .keyboardEv => ([], .ok st)
    | .otherEv => ([], .ok st)

/-- The inner `while let Some(result) = context.pending_event()` drain
(src/eis.rs lines 100-197): handle every buffered result in order,
stopping at the first error. -/
def drainBatch (st : LoopState) : List EiIn → List ConnAct × Except ConnFail LoopState
  | [] => ([], .ok st)
  | i :: rest =>
    match drainStep st i with
    | (tr, .error e) => (tr, .error e)
    | (tr, .ok st1) =>
      let next := drainBatch st1 rest
      (tr ++ next.1, next.2)

/-- The outer establishment loop (src/eis.rs lines 97-225), with an
explicit fuel bound (every iteration consumes one unit; `connect` passes
more fuel than any run can use).  Returns the emitted actions, the
unconsumed part of the script, and the final locals or the error. -/
def connectLoop : Nat → LoopState → List EiIn → List PollOutcome →
    List ConnAct × List PollOutcome × Except ConnFail LoopState
  | 0, _, _, script => ([], script, .error .fuelOut)
  | fuel + 1, st, buffered, script =>
    if st.ready = false ∧ st.timeoutCount < 10 then
      match drainBatch st buffered with
      | (tr, .error e) => (tr, script, .error e)
      | (tr, .ok st1) =>
        let tr := tr ++ [ConnAct.flush]
        if buffered ≠ [] then
          let next := connectLoop fuel st1 [] script
          (tr ++ next.1, next.2.1, next.2.2)
        else
          match script with
          | PollOutcome.data evs :: rest =>
            let next := connectLoop fuel st1 evs rest
            (tr ++ next.1, next.2.1, next.2.2)
          | PollOutcome.empty :: rest =>
            let next := connectLoop fuel { st1 with timeoutCount := st1.timeoutCount + 1 } [] rest
            (tr ++ [ConnAct.emptyPoll] ++ next.1, next.2.1, next.2.2)
          | PollOutcome.interrupted :: rest =>
            let next := connectLoop fuel st1 [] rest
            (tr ++ next.1, next.2.1, next.2.2)
          | PollOutcome.ioFailure :: rest => (tr, rest, .error .transport)
          | [] =>
            let next := connectLoop fuel { st1 with timeoutCount := st1.timeoutCount + 1 } [] []
            (tr ++ [ConnAct.emptyPoll] ++ next.1, next.2.1, next.2.2)
    else ([], script, .ok st)

/-- The post-handshake drain (src/eis.rs lines 68-79) and the two final
non-blocking drains (lines 239-258): answer pings, drop every other
buffered result. -/
def pingOnlyDrain : List EiIn → List ConnAct
  | [] => []
  | i :: rest =>
    (if i = .req .ping then [ConnAct.pingDone] else []) ++ pingOnlyDrain rest

/-- The locals at loop entry (src/eis.rs lines 57, 89-95). -/
def initState (hsSerial : Nat) : LoopState :=
  { seatCaps := [], keyboard := none, kbdDevice := none,
    deviceInterfaces := [], ready := false, timeoutCount := 0,
    lastSerial := hsSerial }

/-- Fuel that strictly exceeds the number of loop iterations any script
can drive: each script element is consumed by at most two iterations and
at most eleven further iterations run on an exhausted script. -/
def connectFuel (script : List PollOutcome) : Nat :=
  2 * script.length + 13

/-- `EisConnection::connect` after the blocking handshake
(src/eis.rs lines 40-272): drain handshake leftovers answering pings
only, run the establishment loop, and on success check the timeout
budget, require the keyboard and device, start emulating with the last
observed serial, and perform the final best-effort drain (one
non-blocking read consuming the next data outcome, if any). -/
def connect (verbose : Bool) (hsSerial : Nat) (handshakeBuf : List EiIn)
    (script : List PollOutcome) : List ConnAct × Except ConnFail EisConnection :=
  let tr0 := pingOnlyDrain handshakeBuf ++ [ConnAct.flush]
  match connectLoop (connectFuel script) (initState hsSerial) [] script with
  | (tr, _, .error e) => (tr0 ++ tr, .error e)
  | (tr, remaining, .ok st) =>
    if 10 ≤ st.timeoutCount then (tr0 ++ tr, .error .timeout)
    else
      match st.keyboard with
      | none => (tr0 ++ tr, .error .noKeyboard)
      | some kb =>
        match st.kbdDevice with
        | none => (tr0 ++ tr, .error .noDevice)
        | some dev =>
          let tr1 := [ConnAct.startEmulating st.lastSerial, ConnAct.flush]
          let tr2 :=
            match remaining with
            | PollOutcome.data evs :: _ => pingOnlyDrain evs
            | _ => []
          (tr0 ++ tr ++ tr1 ++ tr2 ++ [ConnAct.flush],
           .ok { keyboard := kb, device := dev, last_serial := st.lastSerial,
                 verbose := verbose })

/-- All events a script can deliver to the loop, in arrival order (a
measuring function for the stated properties). -/
def scriptEvents : List PollOutcome → List EiIn
  | [] => []
  | PollOutcome.data evs :: rest => evs ++ scriptEvents rest
  | _ :: rest => scriptEvents rest

/-- Number of empty polls recorded in a trace (a measuring function for
the stated properties). -/
def countEmptyPoll : List ConnAct → Nat
  | [] => 0
  | .emptyPoll :: r => countEmptyPoll r + 1
  | _ :: r => countEmptyPoll r

/-- A keyboard sub-interface announcement is either already reflected in
the locals (a recorded keyboard object or a pending map entry) or must
come from an event. -/
def KbdKnown (st : LoopState) : Prop :=
  st.keyboard.isSome = true ∨ (lookupAssoc st.deviceInterfaces "ei_keyboard").isSome = true

instance (st : LoopState) : Decidable (KbdKnown st) := by
  unfold KbdKnown; infer_instance

/-- Some event in the list announces a keyboard sub-interface. -/
def HasKbd (l : List EiIn) : Prop :=
  ∃ d o, EiIn.req (EiEv.devInterface d "ei_keyboard" o) ∈ l

/-- Some event in the list is a device-resumed notification. -/
def HasResumed (l : List EiIn) : Prop :=
  ∃ d s, EiIn.req (EiEv.devResumed d s) ∈ l

/-- Folding a sequence of capability announcements into a capability
map, as the seat-capability arm of the drain loop does one by one. -/
def applyAnns (m : List (String × Nat)) (anns : List (String × Nat)) : List (String × Nat) :=
  anns.foldl (fun acc p => insertAssoc acc p.1 (p.2 % (2 ^ 64))) m

/-- A server script on which the establishment succeeds although the
device whose keyboard sub-interface was captured (device 1) never
receives a resume; the resume arrives on device 2.  Used to settle the
device-identity reading of the readiness invariant. -/
def crossResumeScript : List PollOutcome :=
  [.data [.req .seatAnnounced,
          .req (.seatCapability "ei_keyboard" 2), .req .seatDone,
          .req .seatNewDevice,
          .req (.devInterface 1 "ei_keyboard" 100), .req (.devDone 1),
          .req .seatNewDevice,
          .req (.devInterface 2 "ei_pointer" 200), .req (.devDone 2),
          .req (.devResumed 2 5)]]

/-- A server script alternating empty polls with data that carries an
event: ten empty polls in total, none of them consecutive beyond one.
Used to settle whether the poll budget is consecutive or cumulative. -/
def interleavedScript : List PollOutcome :=
  (List.replicate 9 [PollOutcome.empty, PollOutcome.data [.req .seatAnnounced]]).flatten
  ++ [PollOutcome.empty]

/-- A clean negotiation script: capabilities, bind, one device with a
keyboard sub-interface, resume. -/
def cleanScript : List PollOutcome :=
  [.data [.req (.seatCapability "kbd" 2), .req .seatDone, .req .seatNewDevice,
          .req (.devInterface 1 "ei_keyboard" 10), .req (.devDone 1),
          .req (.devResumed 1 3)]]

/-!
## Properties

Helper lemmas first, then one theorem per examined claim (with witnesses
and counterexamples where applicable).
-/

theorem dispatch_mem (pend : List EiIn) (a : KeyAct) (h : a ∈ dispatch pend) :
    a = KeyAct.pingDone := by
  induction pend with
  | nil => simp [dispatch] at h
  | cons i rest ih =>
    simp only [dispatch] at h
    rcases List.mem_append.mp h with h1 | h2
    · by_cases hc : i = EiIn.req EiEv.ping
      · simp [hc] at h1; exact h1
      · simp [hc] at h1
    · exact ih h2

theorem countFlush_append (l1 l2 : List KeyAct) :
    countFlush (l1 ++ l2) = countFlush l1 + countFlush l2 := by
  induction l1 with
  | nil => simp [countFlush]
  | cons a r ih => cases a <;> simp [countFlush, ih] <;> omega

theorem countFlush_dispatch (pend : List EiIn) : countFlush (dispatch pend) = 0 := by
  induction pend with
  | nil => rfl
  | cons i rest ih =>
    simp only [dispatch]
    by_cases hc : i = EiIn.req EiEv.ping <;>
      simp [hc, countFlush_append, countFlush, ih]

theorem pressSeq_eq (s : Nat) (l : List Nat) :
    pressSeq s l = (l.map fun m => [KeyAct.key m true, KeyAct.frame s]).flatten := by
  induction l with
  | nil => rfl
  | cons m ms ih => simp [pressSeq, ih]

theorem releaseSeq_eq (s : Nat) (l : List Nat) :
    releaseSeq s l = (l.map fun m => [KeyAct.key m false, KeyAct.frame s]).flatten := by
  induction l with
  | nil => rfl
  | cons m ms ih => simp [releaseSeq, ih]

theorem pressSeq_frames (s0 : Nat) (l : List Nat) (s : Nat)
    (h : KeyAct.frame s ∈ pressSeq s0 l) : s = s0 := by
  induction l with
  | nil => simp [pressSeq] at h
  | cons m ms ih =>
    simp only [pressSeq, List.mem_cons] at h
    rcases h with h | h | h
    · cases h
    · cases h; rfl
    · exact ih h

theorem releaseSeq_frames (s0 : Nat) (l : List Nat) (s : Nat)
    (h : KeyAct.frame s ∈ releaseSeq s0 l) : s = s0 := by
  induction l with
  | nil => simp [releaseSeq] at h
  | cons m ms ih =>
    simp only [releaseSeq, List.mem_cons] at h
    rcases h with h | h | h
    · cases h
    · cases h; rfl
    · exact ih h

theorem type_key_state (c : EisConnection) (code : Nat) (shift : Bool) (delay_us : Nat)
    (pend : List EiIn) : (type_key c code shift delay_us pend).1 = c := rfl

theorem type_key_frames (c : EisConnection) (code : Nat) (shift : Bool) (delay_us : Nat)
    (pend : List EiIn) (s : Nat)
    (h : KeyAct.frame s ∈ (type_key c code shift delay_us pend).2) : s = c.last_serial := by
  cases shift <;> simp [type_key] at h <;>
    rcases h with h | h <;>
    first
      | exact h
      | exact absurd (dispatch_mem pend _ h) (by simp)

theorem type_text_go_state (delay_us : Nat) :
    ∀ (l : List Char) (c : EisConnection) (pends : List (List EiIn)),
      (type_text_go c delay_us l pends).1 = c
  | [], _, _ => rfl
  | ch :: rest, c, pends => by
    simp only [type_text_go]
    cases hk : char_to_key ch with
    | some ki =>
      simp only [type_key]
      exact type_text_go_state delay_us rest c pends.tail
    | none => exact type_text_go_state delay_us rest c pends

theorem type_text_go_frames (delay_us : Nat) :
    ∀ (l : List Char) (c : EisConnection) (pends : List (List EiIn)) (s : Nat),
      KeyAct.frame s ∈ (type_text_go c delay_us l pends).2 → s = c.last_serial
  | [], _, _, s, h => by simp [type_text_go] at h
  | ch :: rest, c, pends, s, h => by
    simp only [type_text_go] at h
    cases hk : char_to_key ch with
    | some ki =>
      rw [hk] at h
      simp only [List.mem_append] at h
      rcases h with h | h
      · exact type_key_frames c ki.code ki.shift delay_us (pends.headD []) s h
      · have h2 := h
        rw [show (type_key c ki.code ki.shift delay_us (pends.headD [])).1 = c from rfl] at h2
        exact type_text_go_frames delay_us rest c pends.tail s h2
    | none =>
      rw [hk] at h
      exact type_text_go_frames delay_us rest c pends s h

/-- C5 counterexample: `parse_combo "A"` does not auto-add a left-shift
modifier, contrary to the stated expectation. -/
theorem parse_combo_A_claim_false :
    parse_combo "A" ≠ Except.ok ([KEY_LEFTSHIFT], KEY_A) := by decide

/-- C5 (amended): `parse_combo "A"` succeeds with an EMPTY modifier list
and terminal keycode KEY_A: the key token is lowercased before lookup
(src/keymap.rs line 141), so an uppercase letter resolves like its
lowercase form and no shift is auto-added; the auto-add branch fires
only for characters unchanged by lowercasing, such as punctuation. -/
theorem parse_combo_A_no_shift : parse_combo "A" = Except.ok ([], KEY_A) := by decide

/-- C6 (amended): for every lowercase letter the shift flag is false,
and every uppercase letter reuses the keycode of its lowercase
counterpart with shift=true.  The keycodes follow the physical QWERTY
rows of the evdev table, so they are NOT strictly increasing with letter
order (see the counterexample). -/
theorem char_to_key_letters :
    ∀ n : Nat, n < 26 →
      char_to_key (Char.ofNat (97 + n)) = some ⟨AZ_CODES.getD n 0, false⟩
      ∧ char_to_key (Char.ofNat (65 + n)) = some ⟨AZ_CODES.getD n 0, true⟩ := by decide

theorem char_to_key_letters_witness :
    char_to_key (Char.ofNat (97 + 2)) = some ⟨AZ_CODES.getD 2 0, false⟩
    ∧ char_to_key (Char.ofNat (65 + 2)) = some ⟨AZ_CODES.getD 2 0, true⟩ :=
  char_to_key_letters 2 (by decide)

/-- C6 counterexample: the keycodes are not strictly increasing with
letter order: code of the letter b is 48 while code of the letter c
is 46. -/
theorem char_to_key_not_monotone :
    (char_to_key 'b').map KeyInfo.code = some 48
    ∧ (char_to_key 'c').map KeyInfo.code = some 46
    ∧ ¬ ((48 : Nat) < 46) := by decide

/-- C7: for every well-formed combo specification, the emitted trace is:
modifier presses in specification order (each immediately followed by
one frame), the terminal key press plus frame, a flush, the configured
delay, the terminal key release plus frame, modifier releases in exactly
the REVERSE of the press order (each immediately followed by one frame),
a final flush, and the dispatch of pending keep-alives. -/
theorem send_combo_trace_shape (c : EisConnection) (combo : String) (mods : List Nat)
    (k delay_us : Nat) (pend : List EiIn)
    (h : parse_combo combo = .ok (mods, k)) :
    (send_key_combo c combo delay_us pend).1 =
      (mods.map fun m => [KeyAct.key m true, KeyAct.frame c.last_serial]).flatten
      ++ [KeyAct.key k true, KeyAct.frame c.last_serial, KeyAct.flush, KeyAct.sleep delay_us,
          KeyAct.key k false, KeyAct.frame c.last_serial]
      ++ (mods.reverse.map fun m => [KeyAct.key m false, KeyAct.frame c.last_serial]).flatten
      ++ [KeyAct.flush] ++ dispatch pend := by
  unfold send_key_combo
  rw [h]
  simp [pressSeq_eq, releaseSeq_eq]

theorem send_combo_trace_shape_witness :
    (send_key_combo ⟨100, 1, 7, false⟩ "ctrl+shift+t" 5 []).1 =
      ([KEY_LEFTCTRL, KEY_LEFTSHIFT].map fun m => [KeyAct.key m true, KeyAct.frame 7]).flatten
      ++ [KeyAct.key KEY_T true, KeyAct.frame 7, KeyAct.flush, KeyAct.sleep 5,
          KeyAct.key KEY_T false, KeyAct.frame 7]
      ++ ([KEY_LEFTCTRL, KEY_LEFTSHIFT].reverse.map
            fun m => [KeyAct.key m false, KeyAct.frame 7]).flatten
      ++ [KeyAct.flush] ++ dispatch [] :=
  send_combo_trace_shape ⟨100, 1, 7, false⟩ "ctrl+shift+t" [KEY_LEFTCTRL, KEY_LEFTSHIFT]
    KEY_T 5 [] (by decide)

/-- C8 (amended): every key-press transaction performs exactly TWO
transport flushes — one after the press burst, one after the release
burst — regardless of whether shift is involved (a shifted key shares
the same two flush points, it does not get four). -/
theorem type_key_two_flushes (c : EisConnection) (code : Nat) (shift : Bool)
    (delay_us : Nat) (pend : List EiIn) :
    countFlush (type_key c code shift delay_us pend).2 = 2 := by
  cases shift <;>
    simp [type_key, countFlush_append, countFlush, countFlush_dispatch]

/-- C8 counterexample: a key requiring shift is flushed twice, not four
times. -/
theorem type_key_shift_not_four_flushes :
    countFlush (type_key ⟨100, 1, 7, false⟩ KEY_A true 5 []).2 ≠ 4 := by decide

/-- C9: a combo specification that fails to parse makes `send_key_combo`
return the parse error having emitted NO actions at all: no key events,
no frames.  A partial combo is never sent. -/
theorem combo_parse_failure_aborts (c : EisConnection) (combo : String) (delay_us : Nat)
    (pend : List EiIn) (e : ParseFail) (h : parse_combo combo = .error e) :
    send_key_combo c combo delay_us pend = ([], .error e) := by
  unfold send_key_combo
  rw [h]

theorem combo_parse_failure_aborts_witness :
    send_key_combo ⟨100, 1, 7, false⟩ "ctrl+foo" 5 []
      = ([], .error (ParseFail.unknownKey "foo")) :=
  combo_parse_failure_aborts ⟨100, 1, 7, false⟩ "ctrl+foo" 5 []
    (ParseFail.unknownKey "foo") (by decide)

/-- C10: emulation never touches the handle: `type_text` returns the
handle unchanged and every frame it emits carries the serial captured at
establishment; `send_key_combo` likewise on success; and `dispatch`
discards every buffered event — serial-bearing ones included — except
keep-alive probes, which it answers. -/
theorem emulation_preserves_handle (c : EisConnection) (text : String) (delay_us : Nat)
    (pends : List (List EiIn)) (combo : String) (pend pend2 : List EiIn) :
    (type_text c text delay_us pends).1 = c
    ∧ (∀ s, KeyAct.frame s ∈ (type_text c text delay_us pends).2 → s = c.last_serial)
    ∧ (∀ tr c2, send_key_combo c combo delay_us pend = (tr, .ok c2) →
        c2 = c ∧ ∀ s, KeyAct.frame s ∈ tr → s = c.last_serial)
    ∧ (∀ a, a ∈ dispatch pend2 → a = KeyAct.pingDone) := by
  refine ⟨type_text_go_state delay_us text.toList c pends,
          fun s h => type_text_go_frames delay_us text.toList c pends s h,
          ?_, fun a h => dispatch_mem pend2 a h⟩
  intro tr c2 h
  unfold send_key_combo at h
  cases hp : parse_combo combo with
  | error e => rw [hp] at h; exact absurd h (by simp)
  | ok mk =>
    obtain ⟨mods, k⟩ := mk
    rw [hp] at h
    have htr := congrArg Prod.fst h
    have hc2 := congrArg Prod.snd h
    simp only at htr hc2
    refine ⟨(Except.ok.inj hc2).symm, ?_⟩
    intro s hs
    rw [← htr] at hs
    simp [pressSeq_eq, releaseSeq_eq] at hs
    rcases hs with ⟨_, hs⟩ | hs | ⟨_, hs⟩ | hs
    · exact hs
    · exact hs
    · exact hs
    · exact absurd (dispatch_mem pend _ hs) (by simp)

theorem emulation_preserves_handle_witness :
    (type_text ⟨100, 1, 7, false⟩ "a" 5 [[]]).1 = (⟨100, 1, 7, false⟩ : EisConnection)
    ∧ (7 : Nat) = 7 :=
  ⟨(emulation_preserves_handle ⟨100, 1, 7, false⟩ "a" 5 [[]] "x" [] []).1,
   (emulation_preserves_handle ⟨100, 1, 7, false⟩ "a" 5 [[]] "x" [] []).2.1 7 (by decide)⟩

theorem countEmptyPoll_append (l1 l2 : List ConnAct) :
    countEmptyPoll (l1 ++ l2) = countEmptyPoll l1 + countEmptyPoll l2 := by
  induction l1 with
  | nil => simp [countEmptyPoll]
  | cons a r ih => cases a <;> simp [countEmptyPoll, ih] <;> omega

theorem lookupAssoc_insert (m : List (String × Nat)) (k k2 : String) (v : Nat) :
    lookupAssoc (insertAssoc m k v) k2 = if k = k2 then some v else lookupAssoc m k2 := by
  induction m with
  | nil => simp [insertAssoc, lookupAssoc]
  | cons p rest ih =>
    obtain ⟨k0, v0⟩ := p
    by_cases h0 : k0 = k
    · subst h0
      by_cases h2 : k0 = k2 <;> simp [insertAssoc, lookupAssoc, h2]
    · by_cases h2 : k0 = k2
      · subst h2
        have hk2 : ¬ k = k0 := fun hh => h0 hh.symm
        simp [insertAssoc, lookupAssoc, h0, hk2]
      · simp [insertAssoc, lookupAssoc, h0, h2, ih]

theorem drainStep_ok_facts (st : LoopState) (i : EiIn) (tr : List ConnAct) (st1 : LoopState)
    (h : drainStep st i = (tr, .ok st1)) :
    st1.timeoutCount = st.timeoutCount
    ∧ countEmptyPoll tr = 0
    ∧ (KbdKnown st1 → KbdKnown st ∨ ∃ d o, i = EiIn.req (EiEv.devInterface d "ei_keyboard" o))
    ∧ (st1.ready = true → st.ready = true ∨ ∃ d s, i = EiIn.req (EiEv.devResumed d s)) := by
  cases i with
  | parseFailure m => simp [drainStep] at h
  | invalidObject n =>
    simp [drainStep] at h
    obtain ⟨rfl, rfl⟩ := h
    exact ⟨rfl, rfl, fun hk => Or.inl hk, fun hr => Or.inl hr⟩
  | req e =>
    cases e with
    | seatAnnounced =>
      simp [drainStep] at h
      obtain ⟨rfl, rfl⟩ := h
      exact ⟨rfl, rfl, fun hk => Or.inl hk, fun hr => Or.inl hr⟩
    | ping =>
      simp [drainStep] at h
      obtain ⟨rfl, rfl⟩ := h
      exact ⟨rfl, rfl, fun hk => Or.inl hk, fun hr => Or.inl hr⟩
    | disconnected s r x => simp [drainStep] at h
    | connOther =>
      simp [drainStep] at h
      obtain ⟨rfl, rfl⟩ := h
      exact ⟨rfl, rfl, fun hk => Or.inl hk, fun hr => Or.inl hr⟩
    | seatCapability interface mask =>
      simp [drainStep] at h
      obtain ⟨rfl, rfl⟩ := h
      exact ⟨rfl, rfl, fun hk => Or.inl hk, fun hr => Or.inl hr⟩
    | seatDone =>
      simp [drainStep] at h
      obtain ⟨rfl, rfl⟩ := h
      exact ⟨rfl, rfl, fun hk => Or.inl hk, fun hr => Or.inl hr⟩
    | seatNewDevice =>
      simp [drainStep] at h
      obtain ⟨rfl, rfl⟩ := h
      refine ⟨rfl, rfl, fun hk => Or.inl ?_, fun hr => Or.inl hr⟩
      rcases hk with h1 | h2
      · exact Or.inl h1
      · simp [lookupAssoc] at h2
    | seatOther =>
      simp [drainStep] at h
      obtain ⟨rfl, rfl⟩ := h
      exact ⟨rfl, rfl, fun hk => Or.inl hk, fun hr => Or.inl hr⟩
    | devInterface d name obj =>
      simp [drainStep] at h
      obtain ⟨rfl, rfl⟩ := h
      by_cases hname : name = "ei_keyboard"
      · subst hname
        exact ⟨rfl, rfl, fun _ => Or.inr ⟨d, obj, rfl⟩, fun hr => Or.inl hr⟩
      · refine ⟨rfl, rfl, fun hk => Or.inl ?_, fun hr => Or.inl hr⟩
        rcases hk with h1 | h2
        · exact Or.inl h1
        · rw [show ({ st with deviceInterfaces := insertAssoc st.deviceInterfaces name obj } : LoopState).deviceInterfaces = insertAssoc st.deviceInterfaces name obj from rfl,
              lookupAssoc_insert, if_neg hname] at h2
          exact Or.inr h2
    | devDone dev =>
      cases hl : lookupAssoc st.deviceInterfaces "ei_keyboard" with
      | none =>
        simp [drainStep, hl] at h
        obtain ⟨rfl, rfl⟩ := h
        exact ⟨rfl, rfl, fun hk => Or.inl hk, fun hr => Or.inl hr⟩
      | some obj =>
        simp [drainStep, hl] at h
        obtain ⟨rfl, rfl⟩ := h
        refine ⟨rfl, rfl, fun _ => Or.inl (Or.inr ?_), fun hr => Or.inl hr⟩
        rw [hl]
        rfl
    | devResumed d s =>
      simp [drainStep] at h
      obtain ⟨rfl, rfl⟩ := h
      exact ⟨rfl, rfl, fun hk => Or.inl hk, fun _ => Or.inr ⟨d, s, rfl⟩⟩
    | devOther =>
      simp [drainStep] at h
      obtain ⟨rfl, rfl⟩ := h
      exact ⟨rfl, rfl, fun hk => Or.inl hk, fun hr => Or.inl hr⟩
    | keyboardEv =>
      simp [drainStep] at h
      obtain ⟨rfl, rfl⟩ := h
      exact ⟨rfl, rfl, fun hk => Or.inl hk, fun hr => Or.inl hr⟩
    | otherEv =>
      simp [drainStep] at h
      obtain ⟨rfl, rfl⟩ := h
      exact ⟨rfl, rfl, fun hk => Or.inl hk, fun hr => Or.inl hr⟩

theorem drainBatch_ok_facts (evs : List EiIn) :
    ∀ (st : LoopState) (tr : List ConnAct) (st1 : LoopState),
      drainBatch st evs = (tr, .ok st1) →
      st1.timeoutCount = st.timeoutCount
      ∧ countEmptyPoll tr = 0
      ∧ (KbdKnown st1 → KbdKnown st ∨ HasKbd evs)
      ∧ (st1.ready = true → st.ready = true ∨ HasResumed evs) := by
  induction evs with
  | nil =>
    intro st tr st1 h
    simp [drainBatch] at h
    obtain ⟨rfl, rfl⟩ := h
    exact ⟨rfl, rfl, fun hk => Or.inl hk, fun hr => Or.inl hr⟩
  | cons i rest ih =>
    intro st tr st1 h
    cases hstep : drainStep st i with
    | mk t r =>
      cases r with
      | error e =>
        rw [show drainBatch st (i :: rest) = (t, .error e) by
              simp [drainBatch, hstep]] at h
        simp at h
      | ok stm =>
        cases hrest : drainBatch stm rest with
        | mk t2 r2 =>
          rw [show drainBatch st (i :: rest) = (t ++ t2, r2) by
                simp [drainBatch, hstep, hrest]] at h
          simp only [Prod.mk.injEq] at h
          obtain ⟨htr, hres⟩ := h
          subst hres
          obtain ⟨hstc, hsc, hskbd, hsready⟩ := drainStep_ok_facts st i t stm hstep
          obtain ⟨htc2, hc2, hkbd2, hready2⟩ := ih stm t2 st1 hrest
          refine ⟨by rw [htc2, hstc], ?_, ?_, ?_⟩
          · rw [← htr, countEmptyPoll_append, hsc, hc2]
          · intro hk
            rcases hkbd2 hk with hk2 | hk2
            · rcases hskbd hk2 with hk3 | ⟨d, o, hk3⟩
              · exact Or.inl hk3
              · exact Or.inr ⟨d, o, by rw [hk3]; exact List.mem_cons_self _ _⟩
            · obtain ⟨d, o, hmem⟩ := hk2
              exact Or.inr ⟨d, o, List.mem_cons_of_mem _ hmem⟩
          · intro hr
            rcases hready2 hr with hr2 | hr2
            · rcases hsready hr2 with hr3 | ⟨d, s, hr3⟩
              · exact Or.inl hr3
              · exact Or.inr ⟨d, s, by rw [hr3]; exact List.mem_cons_self _ _⟩
            · obtain ⟨d, s, hmem⟩ := hr2
              exact Or.inr ⟨d, s, List.mem_cons_of_mem _ hmem⟩

theorem connectLoop_ok_facts (fuel : Nat) :
    ∀ (st : LoopState) (buf : List EiIn) (script : List PollOutcome)
      (tr : List ConnAct) (rem : List PollOutcome) (st1 : LoopState),
      connectLoop fuel st buf script = (tr, rem, .ok st1) →
      st1.timeoutCount = st.timeoutCount + countEmptyPoll tr
      ∧ (KbdKnown st1 → KbdKnown st ∨ HasKbd buf ∨ HasKbd (scriptEvents script))
      ∧ (st1.ready = true → st.ready = true ∨ HasResumed buf ∨ HasResumed (scriptEvents script))
      ∧ (st1.ready = true ∨ 10 ≤ st1.timeoutCount) := by
  induction fuel with
  | zero =>
    intro st buf script tr rem st1 h
    simp [connectLoop] at h
  | succ fuel ih =>
    intro st buf script tr rem st1 h
    by_cases hcond : st.ready = false ∧ st.timeoutCount < 10
    · simp only [connectLoop] at h
      rw [if_pos hcond] at h
      cases hdrain : drainBatch st buf with
      | mk td rd =>
        rw [hdrain] at h
        cases rd with
        | error e => simp at h
        | ok stm =>
          simp only at h
          obtain ⟨hdtc, hdc, hdkbd, hdready⟩ := drainBatch_ok_facts buf st td stm hdrain
          by_cases hbuf : buf = []
          · subst hbuf
            simp [drainBatch] at hdrain
            obtain ⟨rfl, rfl⟩ := hdrain
            rw [if_neg (show ¬(([] : List EiIn) ≠ []) by simp)] at h
            cases script with
            | nil =>
              cases hnext : connectLoop fuel { st with timeoutCount := st.timeoutCount + 1 } [] [] with
              | mk t2 p2 =>
                obtain ⟨rem2, r2⟩ := p2
                simp only at h
                rw [hnext] at h
                simp only [Prod.mk.injEq] at h
                obtain ⟨htr, hrem, hr2⟩ := h
                subst hr2
                obtain ⟨htc2, hkbd2, hready2, hexit2⟩ := ih _ [] [] t2 rem2 st1 hnext
                have htcx : st1.timeoutCount = st.timeoutCount + 1 + countEmptyPoll t2 := by
                  simpa using htc2
                refine ⟨?_, ?_, ?_, hexit2⟩
                · rw [← htr]
                  simp [countEmptyPoll_append, countEmptyPoll]
                  omega
                · intro hk
                  rcases hkbd2 hk with hk2 | hk2 | hk2
                  · exact Or.inl hk2
                  · obtain ⟨d, o, hm⟩ := hk2
                    simp at hm
                  · obtain ⟨d, o, hm⟩ := hk2
                    simp [scriptEvents] at hm
                · intro hr
                  rcases hready2 hr with hr2 | hr2 | hr2
                  · exact Or.inl hr2
                  · obtain ⟨d, s, hm⟩ := hr2
                    simp at hm
                  · obtain ⟨d, s, hm⟩ := hr2
                    simp [scriptEvents] at hm
            | cons outcome rest =>
              cases outcome with
              | data evs =>
                cases hnext : connectLoop fuel st evs rest with
                | mk t2 p2 =>
                  obtain ⟨rem2, r2⟩ := p2
                  simp only at h
                  rw [hnext] at h
                  simp only [Prod.mk.injEq] at h
                  obtain ⟨htr, hrem, hr2⟩ := h
                  subst hr2
                  obtain ⟨htc2, hkbd2, hready2, hexit2⟩ := ih st evs rest t2 rem2 st1 hnext
                  refine ⟨?_, ?_, ?_, hexit2⟩
                  · rw [← htr]
                    simp [countEmptyPoll_append, countEmptyPoll]
                    omega
                  · intro hk
                    rcases hkbd2 hk with hk2 | hk2 | hk2
                    · exact Or.inl hk2
                    · obtain ⟨d, o, hm⟩ := hk2
                      exact Or.inr (Or.inr ⟨d, o, by
                        simp only [scriptEvents, List.mem_append]
                        exact Or.inl hm⟩)
                    · obtain ⟨d, o, hm⟩ := hk2
                      exact Or.inr (Or.inr ⟨d, o, by
                        simp only [scriptEvents, List.mem_append]
                        exact Or.inr hm⟩)
                  · intro hr
                    rcases hready2 hr with hr2 | hr2 | hr2
                    · exact Or.inl hr2
                    · obtain ⟨d, s, hm⟩ := hr2
                      exact Or.inr (Or.inr ⟨d, s, by
                        simp only [scriptEvents, List.mem_append]
                        exact Or.inl hm⟩)
                    · obtain ⟨d, s, hm⟩ := hr2
                      exact Or.inr (Or.inr ⟨d, s, by
                        simp only [scriptEvents, List.mem_append]
                        exact Or.inr hm⟩)
              | empty =>
                cases hnext : connectLoop fuel { st with timeoutCount := st.timeoutCount + 1 } [] rest with
                | mk t2 p2 =>
                  obtain ⟨rem2, r2⟩ := p2
                  simp only at h
                  rw [hnext] at h
                  simp only [Prod.mk.injEq] at h
                  obtain ⟨htr, hrem, hr2⟩ := h
                  subst hr2
                  obtain ⟨htc2, hkbd2, hready2, hexit2⟩ := ih _ [] rest t2 rem2 st1 hnext
                  have htcx : st1.timeoutCount = st.timeoutCount + 1 + countEmptyPoll t2 := by
                    simpa using htc2
                  refine ⟨?_, ?_, ?_, hexit2⟩
                  · rw [← htr]
                    simp [countEmptyPoll_append, countEmptyPoll]
                    omega
                  · intro hk
                    rcases hkbd2 hk with hk2 | hk2 | hk2
                    · exact Or.inl hk2
                    · obtain ⟨d, o, hm⟩ := hk2
                      simp at hm
                    · obtain ⟨d, o, hm⟩ := hk2
                      exact Or.inr (Or.inr ⟨d, o, by simpa [scriptEvents] using hm⟩)
                  · intro hr
                    rcases hready2 hr with hr2 | hr2 | hr2
                    · exact Or.inl hr2
                    · obtain ⟨d, s, hm⟩ := hr2
                      simp at hm
                    · obtain ⟨d, s, hm⟩ := hr2
                      exact Or.inr (Or.inr ⟨d, s, by simpa [scriptEvents] using hm⟩)
              | interrupted =>
                cases hnext : connectLoop fuel st [] rest with
                | mk t2 p2 =>
                  obtain ⟨rem2, r2⟩ := p2
                  simp only at h
                  rw [hnext] at h
                  simp only [Prod.mk.injEq] at h
                  obtain ⟨htr, hrem, hr2⟩ := h
                  subst hr2
                  obtain ⟨htc2, hkbd2, hready2, hexit2⟩ := ih st [] rest t2 rem2 st1 hnext
                  refine ⟨?_, ?_, ?_, hexit2⟩
                  · rw [← htr]
                    simp [countEmptyPoll_append, countEmptyPoll]
                    omega
                  · intro hk
                    rcases hkbd2 hk with hk2 | hk2 | hk2
                    · exact Or.inl hk2
                    · obtain ⟨d, o, hm⟩ := hk2
                      simp at hm
                    · obtain ⟨d, o, hm⟩ := hk2
                      exact Or.inr (Or.inr ⟨d, o, by simpa [scriptEvents] using hm⟩)
                  · intro hr
                    rcases hready2 hr with hr2 | hr2 | hr2
                    · exact Or.inl hr2
                    · obtain ⟨d, s, hm⟩ := hr2
                      simp at hm
                    · obtain ⟨d, s, hm⟩ := hr2
                      exact Or.inr (Or.inr ⟨d, s, by simpa [scriptEvents] using hm⟩)
              | ioFailure => simp at h
          · rw [if_pos hbuf] at h
            cases hnext : connectLoop fuel stm [] script with
            | mk t2 p2 =>
              obtain ⟨rem2, r2⟩ := p2
              rw [hnext] at h
              simp only [Prod.mk.injEq] at h
              obtain ⟨htr, hrem, hr2⟩ := h
              subst hr2
              obtain ⟨htc2, hkbd2, hready2, hexit2⟩ := ih stm [] script t2 rem2 st1 hnext
              refine ⟨?_, ?_, ?_, hexit2⟩
              · rw [← htr]
                simp [countEmptyPoll_append, countEmptyPoll]
                omega
              · intro hk
                rcases hkbd2 hk with hk2 | hk2 | hk2
                · rcases hdkbd hk2 with hk3 | hk3
                  · exact Or.inl hk3
                  · exact Or.inr (Or.inl hk3)
                · obtain ⟨d, o, hm⟩ := hk2
                  simp at hm
                · exact Or.inr (Or.inr hk2)
              · intro hr
                rcases hready2 hr with hr2 | hr2 | hr2
                · rcases hdready hr2 with hr3 | hr3
                  · exact Or.inl hr3
                  · exact Or.inr (Or.inl hr3)
                · obtain ⟨d, s, hm⟩ := hr2
                  simp at hm
                · exact Or.inr (Or.inr hr2)
    · simp only [connectLoop] at h
      rw [if_neg hcond] at h
      simp only [Prod.mk.injEq] at h
      obtain ⟨htr, hrem, hst⟩ := h
      obtain rfl := Except.ok.inj hst
      refine ⟨by rw [← htr]; simp [countEmptyPoll], fun hk => Or.inl hk, fun hr => Or.inl hr, ?_⟩
      rcases Decidable.not_and_iff_or_not.mp hcond with hx | hx
      · exact Or.inl (by simpa using hx)
      · exact Or.inr (by omega)

theorem drainBatch_append_ok (l1 : List EiIn) :
    ∀ (st : LoopState) (t1 : List ConnAct) (st1 : LoopState) (l2 : List EiIn),
      drainBatch st l1 = (t1, .ok st1) →
      drainBatch st (l1 ++ l2) = (t1 ++ (drainBatch st1 l2).1, (drainBatch st1 l2).2) := by
  induction l1 with
  | nil =>
    intro st t1 st1 l2 h
    simp [drainBatch] at h
    obtain ⟨rfl, rfl⟩ := h
    simp
  | cons i rest ih =>
    intro st t1 st1 l2 h
    cases hstep : drainStep st i with
    | mk t r =>
      cases r with
      | error e =>
        rw [show drainBatch st (i :: rest) = (t, .error e) by simp [drainBatch, hstep]] at h
        simp at h
      | ok stm =>
        cases hrest : drainBatch stm rest with
        | mk t2 r2 =>
          rw [show drainBatch st (i :: rest) = (t ++ t2, r2) by
                simp [drainBatch, hstep, hrest]] at h
          simp only [Prod.mk.injEq] at h
          obtain ⟨htr, hres⟩ := h
          subst hres
          have hx := ih stm t2 st1 l2 hrest
          rw [show (i :: rest) ++ l2 = i :: (rest ++ l2) from rfl]
          rw [show drainBatch st (i :: (rest ++ l2))
                = (t ++ (drainBatch stm (rest ++ l2)).1, (drainBatch stm (rest ++ l2)).2) by
                simp [drainBatch, hstep]]
          rw [hx]
          simp [← htr]

/-- C2 counterexample: two seat capabilities with overlapping masks (1
and 1) make the seat-done handler bind mask 2 — the arithmetic SUM —
whereas their bitwise union is 1. -/
theorem bind_mask_is_sum_not_union :
    (drainBatch (initState 0) [EiIn.req (EiEv.seatCapability "ei_pointer" 1),
                               EiIn.req (EiEv.seatCapability "ei_keyboard" 1),
                               EiIn.req EiEv.seatDone]).1
      = [ConnAct.bind 2, ConnAct.flush]
    ∧ (1 ||| 1 : Nat) = 1 ∧ (2 : Nat) ≠ 1 := by decide

/-- C2 (amended): when the seat-done signal is processed, the emitted
bind request carries the wrapping SUM of the per-interface capability
masks accumulated so far (one entry per interface name, later
announcements overwriting earlier ones) — not the bitwise union, from
which it differs whenever announced masks overlap. -/
theorem seat_done_binds_sum (anns : List (String × Nat)) :
    ∀ st : LoopState,
      drainBatch st ((anns.map fun p => EiIn.req (EiEv.seatCapability p.1 p.2))
                      ++ [EiIn.req EiEv.seatDone])
        = ([ConnAct.bind (sumCaps (applyAnns st.seatCaps anns)), ConnAct.flush],
           .ok { st with seatCaps := applyAnns st.seatCaps anns }) := by
  induction anns with
  | nil => intro st; simp [drainBatch, drainStep, applyAnns]
  | cons p rest ih =>
    intro st
    simp only [List.map_cons, List.cons_append, drainBatch, drainStep, List.append_eq]
    rw [ih]
    simp [applyAnns]

/-- C3 counterexample: ten empty polls interleaved one-for-one with
successful data reads still exhaust the budget: the establishment fails
with Timeout although no two empty polls are consecutive. -/
theorem interleaved_empties_still_timeout :
    (connect false 0 [] interleavedScript).2 = .error .timeout := by decide

/-- C3 (amended): the poll counter is CUMULATIVE, not consecutive: over
any successful run of the establishment loop the final counter equals
the initial counter plus the total number of empty polls recorded in the
trace — it is never reset by events or readable data, and the loop stops
(failing with Timeout) as soon as ten empty polls have accumulated. -/
theorem timeout_budget_cumulative (fuel : Nat) (st : LoopState) (buf : List EiIn)
    (script : List PollOutcome) (tr : List ConnAct) (rem : List PollOutcome) (st1 : LoopState)
    (h : connectLoop fuel st buf script = (tr, rem, .ok st1)) :
    st1.timeoutCount = st.timeoutCount + countEmptyPoll tr :=
  (connectLoop_ok_facts fuel st buf script tr rem st1 h).1

theorem timeout_budget_cumulative_witness :
    ({ seatCaps := [], keyboard := none, kbdDevice := none, deviceInterfaces := [],
       ready := false, timeoutCount := 10, lastSerial := 0 } : LoopState).timeoutCount
      = (initState 0).timeoutCount
        + countEmptyPoll ((List.replicate 10 ([ConnAct.flush, ConnAct.emptyPoll])).flatten) :=
  timeout_budget_cumulative 12 (initState 0) [] []
    ((List.replicate 10 ([ConnAct.flush, ConnAct.emptyPoll])).flatten) []
    { seatCaps := [], keyboard := none, kbdDevice := none, deviceInterfaces := [],
      ready := false, timeoutCount := 10, lastSerial := 0 }
    (by decide)

/-- C1 counterexample: on this script the establishment succeeds and the
returned handle records device 1 (whose keyboard sub-interface was
captured), yet the only resume notification in the entire script names
device 2: the resumed device is never checked against the keyboard
device. -/
theorem connect_cross_device_resume :
    (connect false 0 [] crossResumeScript).2
      = .ok { keyboard := 100, device := 1, last_serial := 5, verbose := false }
    ∧ scriptEvents crossResumeScript =
        [.req .seatAnnounced, .req (.seatCapability "ei_keyboard" 2), .req .seatDone,
         .req .seatNewDevice, .req (.devInterface 1 "ei_keyboard" 100), .req (.devDone 1),
         .req .seatNewDevice, .req (.devInterface 2 "ei_pointer" 200), .req (.devDone 2),
         .req (.devResumed 2 5)]
    ∧ (2 : Nat) ≠ 1 := by decide

/-- C1 (amended): a session handle is returned only if, during the drain
loop, some device announced a keyboard sub-interface AND some device —
not necessarily the same one — received a resumed notification while a
keyboard was recorded; if no keyboard was ever announced or no resume
was ever observed, connect returns an error instead. -/
theorem connect_ok_requires_kbd_and_resume (v : Bool) (hsSerial : Nat) (hbuf : List EiIn)
    (script : List PollOutcome) (tr : List ConnAct) (h : EisConnection)
    (hok : connect v hsSerial hbuf script = (tr, .ok h)) :
    HasKbd (scriptEvents script) ∧ HasResumed (scriptEvents script) := by
  unfold connect at hok
  cases hl : connectLoop (connectFuel script) (initState hsSerial) [] script with
  | mk tl p =>
    obtain ⟨rem, res⟩ := p
    rw [hl] at hok
    cases res with
    | error e => simp at hok
    | ok st =>
      simp only at hok
      by_cases htc : 10 ≤ st.timeoutCount
      · rw [if_pos htc] at hok; simp at hok
      · rw [if_neg htc] at hok
        cases hkb : st.keyboard with
        | none => rw [hkb] at hok; simp at hok
        | some kb =>
          rw [hkb] at hok
          cases hkd : st.kbdDevice with
          | none => rw [hkd] at hok; simp at hok
          | some dev =>
            obtain ⟨htc2, hkbd2, hready2, hexit2⟩ :=
              connectLoop_ok_facts (connectFuel script) (initState hsSerial) [] script tl rem st hl
            have hready : st.ready = true := by
              rcases hexit2 with hx | hx
              · exact hx
              · omega
            constructor
            · rcases hkbd2 (Or.inl (by rw [hkb]; rfl)) with hk | hk | hk
              · exact absurd hk (by simp [KbdKnown, initState, lookupAssoc])
              · obtain ⟨d, o, hm⟩ := hk
                simp at hm
              · exact hk
            · rcases hready2 hready with hr | hr | hr
              · simp [initState] at hr
              · obtain ⟨d, s, hm⟩ := hr
                simp at hm
              · exact hr

theorem connect_ok_requires_kbd_and_resume_witness :
    HasKbd (scriptEvents cleanScript) ∧ HasResumed (scriptEvents cleanScript) :=
  connect_ok_requires_kbd_and_resume false 0 [] cleanScript
    [ConnAct.flush, ConnAct.flush, ConnAct.bind 2, ConnAct.flush, ConnAct.flush,
     ConnAct.startEmulating 3, ConnAct.flush, ConnAct.flush]
    { keyboard := 10, device := 1, last_serial := 3, verbose := false } (by decide)

/-- C4 counterexample: a Disconnected event that sits among the events
buffered during the handshake is DROPPED by the post-handshake drain
(which answers pings only), so the establishment proceeds, issues a
capability bind after having received the disconnect, and returns a
handle instead of failing with ServerDisconnected. -/
theorem disconnect_prehandshake_ignored :
    (connect false 0 [EiIn.req (EiEv.disconnected 7 1 "gone")] cleanScript).2
      = .ok { keyboard := 10, device := 1, last_serial := 3, verbose := false }
    ∧ ConnAct.bind 2 ∈ (connect false 0 [EiIn.req (EiEv.disconnected 7 1 "gone")] cleanScript).1 := by
  exact ⟨by decide, by decide⟩

/-- C4 (amended): a Disconnected event PROCESSED BY THE DRAIN LOOP
(after the post-handshake drain, before readiness) aborts the loop at
that exact event: the loop reports the server-sent serial, reason and
explanation on the error stream, fails with ServerDisconnected, and
emits nothing further — in particular no capability bind — regardless of
what follows in the batch or the script; and connect surfaces any loop
error unchanged as its own result. -/
theorem disconnect_in_loop_aborts (fuel : Nat) (st : LoopState) (pre post : List EiIn)
    (script : List PollOutcome) (s r : Nat) (x : String) (tp : List ConnAct) (st1 : LoopState)
    (hready : st.ready = false) (htc : st.timeoutCount < 10)
    (hpre : drainBatch st pre = (tp, .ok st1)) :
    connectLoop (fuel + 1) st (pre ++ EiIn.req (EiEv.disconnected s r x) :: post) script
      = (tp ++ [ConnAct.disconnectReport s r x], script, .error .serverDisconnected)
    ∧ (∀ (v : Bool) (hs : Nat) (hb : List EiIn) (scr : List PollOutcome)
         (tl : List ConnAct) (rm : List PollOutcome) (e : ConnFail),
         connectLoop (connectFuel scr) (initState hs) [] scr = (tl, rm, .error e) →
         (connect v hs hb scr).2 = .error e) := by
  constructor
  · have hdisc : drainBatch st1 (EiIn.req (EiEv.disconnected s r x) :: post)
        = ([ConnAct.disconnectReport s r x], .error .serverDisconnected) := by
      simp [drainBatch, drainStep]
    have hfull := drainBatch_append_ok pre st tp st1
      (EiIn.req (EiEv.disconnected s r x) :: post) hpre
    rw [hdisc] at hfull
    simp only [connectLoop]
    rw [if_pos ⟨hready, htc⟩, hfull]
  · intro v hs hb scr tl rm e hloop
    unfold connect
    rw [hloop]

theorem disconnect_in_loop_aborts_witness :
    connectLoop 1 (initState 0)
        ([EiIn.req EiEv.seatAnnounced] ++ EiIn.req (EiEv.disconnected 7 1 "gone") :: []) []
      = ([] ++ [ConnAct.disconnectReport 7 1 "gone"], [], .error .serverDisconnected) :=
  (disconnect_in_loop_aborts 0 (initState 0) [EiIn.req EiEv.seatAnnounced] [] [] 7 1 "gone"
    [] (initState 0) (by decide) (by decide) (by decide)).1
